import Mathlib

/-!
Verification development for the LAPW basis-family subsystem of the
aiida-elk plugin (aiida_elk/data/lapwbasis.py).  The module manages named
families (AiiDA groups) of species basis files, deduplicated by content
hash.  The definitions below are a shallow embedding of that module: the
backing record store (stored species nodes and groups) is explicit state,
the filesystem view of the source directory is explicit data, and every
Python raise becomes an Except error.
-/

namespace AiidaElk

/-- Group type string tag for LAPW basis families (lapwbasis.py line 12). -/
def LAPWBASIS_GROUP_TYPE : String := "data.lapwbasis.family"

/-- The single-quote character, written via its code point. -/
def squote : Char := Char.ofNat 39

/-- Errors raised by the module: ValueError (bad folder, md5 ambiguity) and
aiida UniquenessError (family owned by another user). -/
inductive ElkError where
  | valueError
  | uniquenessError
deriving DecidableEq, Repr

/-- One stored LapwbasisData node: a SinglefileData carrying the md5 and
chemical_symbol attributes and the wrapped file content. -/
structure LapwbasisData where
  md5 : String
  chemical_symbol : String
  content : String
deriving DecidableEq, Repr

/-- A node that can be a member of a group: either a LapwbasisData or a node
of some other kind (upload_family skips non-LapwbasisData members when it
collects the md5 dedup list). -/
inductive Node where
  | basis (b : LapwbasisData)
  | other (tag : String)
deriving DecidableEq, Repr

/-- An AiiDA group record: label, type string, owning user (id and email),
description and member nodes. -/
structure Group where
  label : String
  type_string : String
  user_id : Nat
  user_email : String
  description : String
  nodes : List Node
deriving DecidableEq, Repr

/-- The acting user (aiida User). -/
structure User where
  id : Nat
  email : String
deriving DecidableEq, Repr

/-- The backing record store: stored species nodes and stored groups. -/
structure DB where
  species : List LapwbasisData
  groups : List Group
deriving DecidableEq, Repr

/-- One directory entry of the source folder. isFile is the result of
os.path.isfile on the entry, which follows symbolic links, so it is true for
a regular file and for a symlink resolving to a regular file; content is the
text of the (resolved) file. -/
structure DirEntry where
  name : String
  isFile : Bool
  content : String
deriving DecidableEq, Repr

/-- The filesystem view of the folder argument: whether os.path.isdir holds
and, when it does, the directory entries. -/
structure Fs where
  isdir : Bool
  entries : List DirEntry
deriving DecidableEq, Repr

/-- External digest primitive (aiida.common.files.md5_file).  The digest is
an abstract fingerprint of the file content used as identity key; we model
it as the content itself, which is faithful up to hash collisions (the
content-addressing assumption of the data model). -/
def md5_file (content : String) : String := content

/-- Python str.lower, taken pointwise on the code points. -/
def pyLower (s : String) : String :=
  String.mk (s.toList.map Char.toLower)

/-- Python str.endswith: suffix test on the code points. -/
def pyEndsWith (s suffix : String) : Bool :=
  suffix.toList.isSuffixOf s.toList

/-- Python str.strip: drop leading and trailing whitespace. -/
def pyStrip (s : String) : String :=
  String.mk
    (((s.toList.dropWhile Char.isWhitespace).reverse.dropWhile
        Char.isWhitespace).reverse)

/-- Embedding of parse_species_file (lapwbasis.py lines 15-24): take the
first 10 characters of the file text, drop every single-quote character
(the Python replace of the quote by the empty string), and strip the
surrounding whitespace. -/
def parse_species_file (content : String) : String :=
  pyStrip (String.mk ((content.toList.take 10).filter (fun c => c ≠ squote)))

/-- Embedding of LapwbasisData.from_md5 (lines 181-191): all stored species
whose md5 attribute equals the given digest. -/
def from_md5 (db : DB) (m : String) : List LapwbasisData :=
  db.species.filter (fun s => s.md5 == m)

/-- Embedding of LapwbasisData.get_or_create (lines 140-178): no stored
species with this md5 means a new instance is constructed (created true);
exactly one, or use_first, means the first is reused (created false);
several without use_first is a ValueError.  The abspath guard of the source
can never fire (os.path.abspath always returns a non-empty string), so it
has no counterpart here. -/
def get_or_create (db : DB) (content : String) (use_first : Bool) :
    Except ElkError (LapwbasisData × Bool) :=
  match from_md5 db (md5_file content) with
  | [] => .ok (⟨md5_file content, parse_species_file content, content⟩, true)
  | s :: rest =>
    if rest.isEmpty || use_first then .ok (s, false)
    else .error .valueError

/-- Candidate filter of upload_family (line 57): the entry is a file
(os.path.isfile, following symlinks) and its lowercased name ends with the
extension .in. -/
def isCandidate (e : DirEntry) : Bool :=
  e.isFile && pyEndsWith (pyLower e.name) ".in"

/-- Contents of the candidate files of the folder, in directory order
(lines 54-58; realpath only renames the path, the content is unchanged). -/
def candidate_files (fs : Fs) : List String :=
  (fs.entries.filter isCandidate).map (fun e => e.content)

/-- Key predicate of the group lookup: label and lapwbasis type string. -/
def groupKeyMatches (name : String) (g : Group) : Bool :=
  g.label == name && g.type_string == LAPWBASIS_GROUP_TYPE

/-- Embedding of Group.collection.get by label and type_string (line 68). -/
def findGroup (groups : List Group) (name : String) : Option Group :=
  groups.find? (groupKeyMatches name)

/-- Write back an updated group record in place of the first stored group
with the given label (mutating a fetched aiida group writes through). -/
def replaceGroup : List Group → String → Group → List Group
  | [], _, _ => []
  | h :: t, name, g =>
    if groupKeyMatches name h then g :: t else h :: replaceGroup t name g

/-- A freshly constructed, unstored group (line 71): owned by the acting
user, empty description, no nodes. -/
def fresh_group (name : String) (user : User) : Group :=
  ⟨name, LAPWBASIS_GROUP_TYPE, user.id, user.email, "", []⟩

/-- The md5 attributes of the LapwbasisData members of a node list (lines
85-90: non-LapwbasisData members are skipped). -/
def basisMd5s (nodes : List Node) : List String :=
  nodes.filterMap (fun n => match n with
    | .basis b => some b.md5
    | .other _ => none)

/-- Embedding of the candidate loop of upload_family (lines 94-99): each
file is resolved via get_or_create; a result whose md5 is already in
md5_list is skipped, otherwise its md5 is appended and the (species,
created) pair is kept. -/
def upload_loop (db : DB) (use_first : Bool) :
    List String → List String →
    Except ElkError (List (LapwbasisData × Bool) × List String)
  | [], md5_list => .ok ([], md5_list)
  | f :: fsrest, md5_list =>
    match get_or_create db f use_first with
    | .error e => .error e
    | .ok sp =>
      if md5_list.contains sp.1.md5 then
        upload_loop db use_first fsrest md5_list
      else
        match upload_loop db use_first fsrest (md5_list ++ [sp.1.md5]) with
        | .error e => .error e
        | .ok (rest, fin) => .ok (sp :: rest, fin)

/-- The group record after an upload: description overwritten with the
supplied value, selected species appended as members (lines 82 and 111). -/
def updated_group (group : Group) (desc : String)
    (species_list : List (LapwbasisData × Bool)) : Group :=
  { group with
    description := desc
    nodes := group.nodes ++ species_list.map (fun p => Node.basis p.1) }

/-- Embedding of the persistence tail of upload_family (lines 101-113):
store the group when newly created, store every newly created species, add
all selected species to the group; the description has been overwritten
with the supplied value. -/
def commit (db : DB) (name desc : String) (group : Group)
    (group_created : Bool) (species_list : List (LapwbasisData × Bool)) : DB :=
  { species := db.species ++ (species_list.filter (fun p => p.2)).map (fun p => p.1)
    groups := if group_created then db.groups ++ [updated_group group desc species_list]
              else replaceGroup db.groups name (updated_group group desc species_list) }

/-- Body of upload_family after the group has been fetched or freshly
constructed (lines 74-115): ownership check, dedup list of the existing
members, candidate loop, persistence, and the (nfiles, nuploaded) result. -/
def upload_to_group (db : DB) (fs : Fs) (name desc : String)
    (stop_if_existing : Bool) (user : User) (group : Group)
    (group_created : Bool) : Except ElkError (DB × Nat × Nat) :=
  if group.user_id ≠ user.id then .error .uniquenessError
  else
    let files := candidate_files fs
    let md5_list := if group_created then [] else basisMd5s group.nodes
    match upload_loop db (!stop_if_existing) files md5_list with
    | .error e => .error e
    | .ok (species_list, _) =>
      .ok (commit db name desc group group_created species_list,
           files.length,
           (species_list.filter (fun p => p.2)).length)

/-- Embedding of upload_family (lines 27-115).  A raise of the Python code
is an error value here; an error carries no successor state, matching the
fact that no database write has happened at any raise site. -/
def upload_family (db : DB) (fs : Fs) (group_name group_description : String)
    (stop_if_existing : Bool) (user : User) : Except ElkError (DB × Nat × Nat) :=
  if fs.isdir = false then .error .valueError
  else
    match findGroup db.groups group_name with
    | some g =>
      upload_to_group db fs group_name group_description stop_if_existing user
        g false
    | none =>
      upload_to_group db fs group_name group_description stop_if_existing user
        (fresh_group group_name user) true

/-- The chemical_symbol attribute a member node carries, when it is a
LapwbasisData. -/
def nodeSymbol : Node → Option String
  | .basis b => some b.chemical_symbol
  | .other _ => none

/-- Python str.capitalize: the first character uppercased, every remaining
character lowercased. -/
def pyCapitalize (s : String) : String :=
  match s.toList with
  | [] => ""
  | c :: cs => String.mk (c.toUpper :: cs.map Char.toLower)

/-- Modelled from the spec: the group query of the external record store
(QueryBuilder with type_string, optional user and node_attributes filters,
lines 214-232).  A node_attributes filter on chemical_symbol keeps a group
exactly when, for every requested symbol, the group has at least one member
node carrying that chemical_symbol attribute. -/
def family_filter (filter_elements : Option (List String)) (user : Option Nat)
    (g : Group) : Bool :=
  g.type_string == LAPWBASIS_GROUP_TYPE
  && (match user with
      | none => true
      | some u => g.user_id == u)
  && (match filter_elements with
      | none => true
      | some els =>
        (els.map pyCapitalize).all
          (fun e => g.nodes.any (fun n => nodeSymbol n == some e)))

/-- Embedding of LapwbasisData.get_lapwbasis_groups (lines 200-238): query
the matching groups, then sort the (name, group) pairs by name.  Python
list.sort is a stable sort, as is mergeSort. -/
def get_lapwbasis_groups (db : DB) (filter_elements : Option (List String))
    (user : Option Nat) : List Group :=
  (db.groups.filter (family_filter filter_elements user)).mergeSort
    (fun a b => decide (a.label ≤ b.label))

/-! Concrete scenarios used by the witnesses below. -/

/-- An empty record store. -/
def dbE : DB := ⟨[], []⟩

/-- The acting user of the scenarios. -/
def uW : User := ⟨1, "u@x"⟩

/-- Directory with three .in files of which two have identical content. -/
def fsW : Fs :=
  ⟨true,
   [⟨"H.in", true, "H file"⟩, ⟨"O.in", true, "O file"⟩,
    ⟨"H_copy.in", true, "H file"⟩]⟩

/-- The first deduplicated species record of the water scenario. -/
def spH : LapwbasisData := ⟨"H file", "H file", "H file"⟩

/-- The second stored species record of the water scenario. -/
def spO : LapwbasisData := ⟨"O file", "O file", "O file"⟩

/-- The record store after uploading the scenario directory to the fresh
family water-basis. -/
def db1W : DB :=
  ⟨[spH, spO],
   [⟨"water-basis", "data.lapwbasis.family", 1, "u@x", "water",
     [Node.basis spH, Node.basis spO]⟩]⟩

/-- Directory with one file whose extension is upper-case .IN. -/
def fsIN : Fs := ⟨true, [⟨"FE.IN", true, "Fe file"⟩]⟩

/-- The species record created for the FE.IN file. -/
def spFE : LapwbasisData := ⟨"Fe file", "Fe file", "Fe file"⟩

/-- The record store after uploading the FE.IN directory. -/
def dbIN : DB :=
  ⟨[spFE],
   [⟨"fam", "data.lapwbasis.family", 1, "u@x", "", [Node.basis spFE]⟩]⟩

/-- A family stored by a different user (id 2). -/
def gF : Group := ⟨"fam", "data.lapwbasis.family", 2, "other@x", "old", []⟩

/-- A record store holding only the foreign-owned family. -/
def dbF : DB := ⟨[], [gF]⟩

/-- Directory with one entry that is not a candidate file. -/
def fsR : Fs := ⟨true, [⟨"README.txt", true, "hello"⟩]⟩

/-- Content of a species file that begins with Fe in single quotes followed
by whitespace. -/
def feContent : String :=
  String.mk ([squote, 'F', 'e', squote] ++ List.replicate 36 ' ' ++
    ['\n', 'r', 'e', 's', 't'])

/-- The species record created from feContent. -/
def feSpecies : LapwbasisData := ⟨feContent, "Fe", feContent⟩

/-! Helper lemmas about get_or_create and the candidate loop. -/

/-- Every member of a from_md5 query result carries the queried digest. -/
theorem from_md5_mem_md5 {db : DB} {m : String} {s : LapwbasisData}
    (h : s ∈ from_md5 db m) : s.md5 = m := by
  have := (List.mem_filter.mp h).2
  exact eq_of_beq this

/-- Any species returned by get_or_create carries the digest of the input
content. -/
theorem get_or_create_md5 {db : DB} {c : String} {u : Bool}
    {p : LapwbasisData × Bool} (h : get_or_create db c u = .ok p) :
    p.1.md5 = md5_file c := by
  unfold get_or_create at h
  cases hq : from_md5 db (md5_file c) with
  | nil => simp [hq] at h; simp [← h]
  | cons s rest =>
    simp only [hq] at h
    by_cases hb : (rest.isEmpty || u) = true
    · simp [hb] at h
      have hs : s ∈ from_md5 db (md5_file c) := by
        rw [hq]; exact List.mem_cons_self s rest
      rw [← h]
      exact from_md5_mem_md5 hs
    · simp [hb] at h

/-- With use_first true, get_or_create never fails. -/
theorem get_or_create_true_ok (db : DB) (c : String) :
    ∃ p, get_or_create db c true = .ok p := by
  cases hq : from_md5 db (md5_file c) with
  | nil =>
    exact ⟨(⟨md5_file c, parse_species_file c, c⟩, true), by
      unfold get_or_create; rw [hq]⟩
  | cons s rest =>
    exact ⟨(s, false), by unfold get_or_create; rw [hq]; simp⟩

/-- A created result of get_or_create is the freshly constructed instance,
and arises exactly when no stored species carries the digest. -/
theorem get_or_create_created {db : DB} {c : String} {u : Bool}
    {sp : LapwbasisData} (h : get_or_create db c u = .ok (sp, true)) :
    from_md5 db (md5_file c) = [] ∧
      sp = ⟨md5_file c, parse_species_file c, c⟩ := by
  unfold get_or_create at h
  cases hq : from_md5 db (md5_file c) with
  | nil => simp [hq] at h; exact ⟨rfl, h.symm⟩
  | cons s rest =>
    simp only [hq] at h
    by_cases hb : (rest.isEmpty || u) = true
    · simp [hb] at h
    · simp [hb] at h

/-- The final md5 list of the loop is the initial one extended by the
digests of the selected species, in order. -/
theorem upload_loop_final {db : DB} {u : Bool} :
    ∀ {files acc : List String} {sl : List (LapwbasisData × Bool)}
      {fin : List String},
      upload_loop db u files acc = .ok (sl, fin) →
      fin = acc ++ sl.map (fun p => p.1.md5)
  | [], acc, sl, fin, h => by
    simp [upload_loop] at h
    simp [← h.1, ← h.2]
  | f :: fsrest, acc, sl, fin, h => by
    rw [upload_loop] at h
    cases hg : get_or_create db f u with
    | error e => simp [hg] at h
    | ok sp =>
      simp only [hg] at h
      by_cases hc : acc.contains sp.1.md5
      · simp only [hc, if_pos] at h
        have ih := upload_loop_final h
        simpa using ih
      · simp only [hc, if_neg, Bool.false_eq_true, not_false_eq_true] at h
        cases hrec : upload_loop db u fsrest (acc ++ [sp.1.md5]) with
        | error e => simp [hrec] at h
        | ok q =>
          simp only [hrec] at h
          obtain ⟨rest, fin2⟩ := q
          simp only [Except.ok.injEq, Prod.mk.injEq] at h
          obtain ⟨hsl, hfin⟩ := h
          have ih := upload_loop_final hrec
          subst hsl hfin
          simp [ih]

/-- Every processed file digest occurs in the final md5 list. -/
theorem upload_loop_covers {db : DB} {u : Bool} :
    ∀ {files acc : List String} {sl : List (LapwbasisData × Bool)}
      {fin : List String},
      upload_loop db u files acc = .ok (sl, fin) →
      ∀ f ∈ files, md5_file f ∈ fin
  | [], acc, sl, fin, h => by simp
  | f :: fsrest, acc, sl, fin, h => by
    rw [upload_loop] at h
    cases hg : get_or_create db f u with
    | error e => simp [hg] at h
    | ok sp =>
      simp only [hg] at h
      have hmd5 : sp.1.md5 = md5_file f := get_or_create_md5 hg
      by_cases hc : acc.contains sp.1.md5
      · simp only [hc, if_pos] at h
        intro x hx
        rcases List.mem_cons.mp hx with hx | hx
        · subst hx
          have hin : md5_file x ∈ acc := by
            rw [← hmd5]; exact List.elem_iff.mp hc
          have hfin := upload_loop_final h
          rw [hfin]
          exact List.mem_append_left _ hin
        · exact upload_loop_covers h x hx
      · simp only [hc, if_neg, Bool.false_eq_true, not_false_eq_true] at h
        cases hrec : upload_loop db u fsrest (acc ++ [sp.1.md5]) with
        | error e => simp [hrec] at h
        | ok q =>
          simp only [hrec] at h
          obtain ⟨rest, fin2⟩ := q
          simp only [Except.ok.injEq, Prod.mk.injEq] at h
          obtain ⟨hsl, hfin⟩ := h
          intro x hx
          rcases List.mem_cons.mp hx with hx | hx
          · subst hx
            have hin : md5_file x ∈ acc ++ [sp.1.md5] := by
              rw [← hmd5]; simp
            have hfin2 := upload_loop_final hrec
            rw [← hfin, hfin2]
            exact List.mem_append_left _ hin
          · rw [← hfin]
            exact upload_loop_covers hrec x hx

/-- When every file digest is already known and use_first holds, the loop
selects nothing and leaves the md5 list unchanged. -/
theorem upload_loop_all_known {db : DB} :
    ∀ {files acc : List String}, (∀ f ∈ files, md5_file f ∈ acc) →
      upload_loop db true files acc = .ok ([], acc)
  | [], acc, _ => by simp [upload_loop]
  | f :: fsrest, acc, hall => by
    rw [upload_loop]
    obtain ⟨p, hp⟩ := get_or_create_true_ok db f
    simp only [hp]
    have hmd5 : p.1.md5 = md5_file f := get_or_create_md5 hp
    have hin : acc.contains p.1.md5 = true := by
      rw [hmd5]
      exact List.elem_iff.mpr (hall f (List.mem_cons_self f fsrest))
    rw [if_pos hin]
    exact upload_loop_all_known (fun x hx => hall x (List.mem_cons_of_mem f hx))

/-- Every selected species marked created is the fresh instance of one of
the processed files, whose digest matches no stored species. -/
theorem upload_loop_created {db : DB} {u : Bool} :
    ∀ {files acc : List String} {sl : List (LapwbasisData × Bool)}
      {fin : List String},
      upload_loop db u files acc = .ok (sl, fin) →
      ∀ p ∈ sl, p.2 = true →
        ∃ f ∈ files, p.1 = ⟨md5_file f, parse_species_file f, f⟩ ∧
          from_md5 db (md5_file f) = []
  | [], acc, sl, fin, h => by
    simp [upload_loop] at h
    intro p hp hcr
    rw [h.1] at hp
    exact absurd hp (List.not_mem_nil p)
  | f :: fsrest, acc, sl, fin, h => by
    rw [upload_loop] at h
    cases hg : get_or_create db f u with
    | error e => simp [hg] at h
    | ok sp =>
      obtain ⟨sp1, created⟩ := sp
      simp only [hg] at h
      by_cases hc : acc.contains sp1.md5
      · simp only [hc, if_pos] at h
        intro p hp hcr
        obtain ⟨g, hgmem, hrest⟩ := upload_loop_created h p hp hcr
        exact ⟨g, List.mem_cons_of_mem f hgmem, hrest⟩
      · simp only [hc, if_neg, Bool.false_eq_true, not_false_eq_true] at h
        cases hrec : upload_loop db u fsrest (acc ++ [sp1.md5]) with
        | error e => simp [hrec] at h
        | ok q =>
          simp only [hrec] at h
          obtain ⟨rest, fin2⟩ := q
          simp only [Except.ok.injEq, Prod.mk.injEq] at h
          obtain ⟨hsl, hfin⟩ := h
          intro p hp hcr
          rw [← hsl] at hp
          rcases List.mem_cons.mp hp with hp | hp
          · subst hp
            simp only at hcr
            subst hcr
            obtain ⟨hq, hinst⟩ := get_or_create_created hg
            exact ⟨f, List.mem_cons_self f fsrest, hinst, hq⟩
          · obtain ⟨g, hgmem, hrest⟩ := upload_loop_created hrec p hp hcr
            exact ⟨g, List.mem_cons_of_mem f hgmem, hrest⟩

/-! Helper lemmas about the group store. -/

/-- A found group satisfies the key predicate. -/
theorem findGroup_matches {gs : List Group} {n : String} {g : Group}
    (h : findGroup gs n = some g) : groupKeyMatches n g = true :=
  List.find?_some h

/-- Replacing the found group by itself changes nothing. -/
theorem replaceGroup_self {gs : List Group} {n : String} {g : Group}
    (h : findGroup gs n = some g) : replaceGroup gs n g = gs := by
  induction gs with
  | nil => simp [findGroup] at h
  | cons a t ih =>
    unfold findGroup at h ih
    by_cases ha : groupKeyMatches n a = true
    · rw [List.find?_cons_of_pos _ ha] at h
      rw [replaceGroup, if_pos ha]
      simp at h
      rw [h]
    · rw [List.find?_cons_of_neg _ ha] at h
      rw [replaceGroup, if_neg ha, ih h]

/-- Replacing the found group makes the replacement the found group,
provided it still satisfies the key predicate. -/
theorem findGroup_replaceGroup {gs : List Group} {n : String} {g g2 : Group}
    (h : findGroup gs n = some g) (h2 : groupKeyMatches n g2 = true) :
    findGroup (replaceGroup gs n g2) n = some g2 := by
  induction gs with
  | nil => simp [findGroup] at h
  | cons a t ih =>
    unfold findGroup at h ih ⊢
    by_cases ha : groupKeyMatches n a = true
    · rw [replaceGroup, if_pos ha, List.find?_cons_of_pos _ h2]
    · rw [List.find?_cons_of_neg _ ha] at h
      rw [replaceGroup, if_neg ha, List.find?_cons_of_neg _ ha, ih h]

/-- Appending a matching group to a store without one makes it the found
group. -/
theorem findGroup_append {gs : List Group} {n : String} {g2 : Group}
    (h : findGroup gs n = none) (h2 : groupKeyMatches n g2 = true) :
    findGroup (gs ++ [g2]) n = some g2 := by
  unfold findGroup at h ⊢
  rw [List.find?_append, h]
  simp [List.find?_cons_of_pos _ h2]

/-- The basis digests of an appended node list. -/
theorem basisMd5s_append (a b : List Node) :
    basisMd5s (a ++ b) = basisMd5s a ++ basisMd5s b := by
  simp [basisMd5s]

/-- The basis digests of a list of wrapped species are their md5 fields. -/
theorem basisMd5s_basisList (sl : List (LapwbasisData × Bool)) :
    basisMd5s (sl.map (fun p => Node.basis p.1)) =
      sl.map (fun p => p.1.md5) := by
  induction sl with
  | nil => rfl
  | cons p t ih => simp [basisMd5s] at ih ⊢; rw [ih]

/-- Elimination of a successful upload_family call into its parts: the
folder exists, the group was found (created false) or freshly constructed
(created true), the ownership check passed, the candidate loop succeeded,
and the result is the committed state with the file and upload counts. -/
theorem upload_family_ok_elim {db : DB} {fs : Fs} {name desc : String}
    {stop : Bool} {user : User} {db1 : DB} {nf nu : Nat}
    (h : upload_family db fs name desc stop user = .ok (db1, nf, nu)) :
    fs.isdir = true ∧
    ∃ g created sl fin,
      ((findGroup db.groups name = some g ∧ created = false) ∨
        (findGroup db.groups name = none ∧ g = fresh_group name user ∧
          created = true)) ∧
      g.user_id = user.id ∧
      upload_loop db (!stop) (candidate_files fs)
          (if created then [] else basisMd5s g.nodes) = .ok (sl, fin) ∧
      db1 = commit db name desc g created sl ∧
      nf = (candidate_files fs).length ∧
      nu = (sl.filter (fun p => p.2)).length := by
  unfold upload_family at h
  by_cases hdir : fs.isdir = false
  · rw [if_pos hdir] at h
    exact absurd h (by simp)
  · have hdt : fs.isdir = true := by revert hdir; cases fs.isdir <;> simp
    rw [if_neg hdir] at h
    refine ⟨hdt, ?_⟩
    cases hfind : findGroup db.groups name with
    | some g =>
      rw [hfind] at h
      simp only [upload_to_group] at h
      by_cases hu : g.user_id = user.id
      · rw [if_neg (by simp [hu])] at h
        cases hloop : upload_loop db (!stop) (candidate_files fs)
            (basisMd5s g.nodes) with
        | error e => simp [hloop] at h
        | ok q =>
          obtain ⟨sl, fin⟩ := q
          simp only [Bool.false_eq_true, if_false, hloop,
            Except.ok.injEq, Prod.mk.injEq] at h
          exact ⟨g, false, sl, fin, Or.inl ⟨rfl, rfl⟩, hu, by simp [hloop],
            h.1.symm, h.2.1.symm, h.2.2.symm⟩
      · rw [if_pos (by simp [hu])] at h
        exact absurd h (by simp)
    | none =>
      rw [hfind] at h
      simp only [upload_to_group] at h
      have hu : (fresh_group name user).user_id = user.id := rfl
      rw [if_neg (by simp [hu])] at h
      cases hloop : upload_loop db (!stop) (candidate_files fs) [] with
      | error e => simp [hloop] at h
      | ok q =>
        obtain ⟨sl, fin⟩ := q
        simp only [if_true, hloop, Except.ok.injEq, Prod.mk.injEq] at h
        exact ⟨fresh_group name user, true, sl, fin, Or.inr ⟨rfl, rfl, rfl⟩,
          hu, by simp [hloop], h.1.symm, h.2.1.symm, h.2.2.symm⟩

/-- Committing no selected species to the already-found group with its own
description leaves the store unchanged. -/
theorem commit_nil {db : DB} {name desc : String} {g : Group}
    (hfind : findGroup db.groups name = some g)
    (hdesc : g.description = desc) :
    commit db name desc g false [] = db := by
  have hup : updated_group g desc [] = g := by
    cases g
    simp [updated_group] at hdesc ⊢
    exact hdesc.symm
  unfold commit
  rw [hup]
  simp only [Bool.false_eq_true, if_false, List.filter_nil, List.map_nil,
    List.append_nil, replaceGroup_self hfind]

/-- C2: uploading the same source directory twice in succession to the same
family name, by the same acting user and with stop_if_existing false, is
idempotent: the second call succeeds with files_uploaded 0 and the same
files_found, and it returns the record store unchanged, so the family's
member set after the second call equals the set after the first call. -/
theorem upload_family_idempotent {db db1 : DB} {fs : Fs}
    {name desc : String} {user : User} {n m : Nat}
    (h : upload_family db fs name desc false user = .ok (db1, n, m)) :
    upload_family db1 fs name desc false user = .ok (db1, n, 0) := by
  obtain ⟨hdir, g, created, sl, fin, hcase, hu, hloop, hdb1, hnf, hnu⟩ :=
    upload_family_ok_elim h
  have hkeyg : groupKeyMatches name (updated_group g desc sl) = true := by
    rcases hcase with ⟨hfind, hc⟩ | ⟨hfind, hg, hc⟩
    · have hk := findGroup_matches hfind
      simpa [groupKeyMatches, updated_group] using hk
    · subst hg
      simp [groupKeyMatches, updated_group, fresh_group]
  have hfind1 : findGroup db1.groups name = some (updated_group g desc sl) := by
    rcases hcase with ⟨hfind, hc⟩ | ⟨hfind, hg, hc⟩
    · subst hc
      rw [hdb1]
      simp only [commit, Bool.false_eq_true, if_false]
      exact findGroup_replaceGroup hfind hkeyg
    · subst hc
      rw [hdb1]
      simp only [commit, if_true]
      exact findGroup_append hfind hkeyg
  have hnodes : basisMd5s (updated_group g desc sl).nodes =
      (if created = true then [] else basisMd5s g.nodes) ++
        sl.map (fun p => p.1.md5) := by
    rcases hcase with ⟨hfind, hc⟩ | ⟨hfind, hg, hc⟩
    · subst hc
      simp only [Bool.false_eq_true, if_false, updated_group]
      rw [basisMd5s_append, basisMd5s_basisList]
    · subst hc
      subst hg
      simp only [if_true, updated_group, fresh_group]
      rw [basisMd5s_append, basisMd5s_basisList]
      rfl
  have hcover : ∀ f ∈ candidate_files fs,
      md5_file f ∈ basisMd5s (updated_group g desc sl).nodes := by
    intro f hf
    have hmem := upload_loop_covers hloop f hf
    have hfin := upload_loop_final hloop
    rw [hnodes, ← hfin]
    exact hmem
  have hloop2 := @upload_loop_all_known db1 (candidate_files fs)
    (basisMd5s (updated_group g desc sl).nodes) hcover
  have hdesc : (updated_group g desc sl).description = desc := by
    simp [updated_group]
  have huid : (updated_group g desc sl).user_id = user.id := by
    simpa [updated_group] using hu
  unfold upload_family
  rw [if_neg (by simp [hdir])]
  simp only [hfind1]
  simp only [upload_to_group]
  rw [if_neg (by simp [huid])]
  simp only [Bool.not_false, Bool.false_eq_true, if_false]
  simp only [hloop2]
  simp only [List.filter_nil, List.length_nil]
  rw [commit_nil hfind1 hdesc, ← hnf]

/-- C1: a successful upload_family call returns files_found equal to the
number of candidate entries discovered in the directory, and files_uploaded
equal to the number of BasisFile records newly created by the call: exactly
files_uploaded records are appended to the store, and every appended record
stems from a candidate file whose digest matched no already-stored record
(candidates whose digest matched a stored record create nothing). -/
theorem upload_family_counts {db db1 : DB} {fs : Fs} {name desc : String}
    {stop : Bool} {user : User} {nf nu : Nat}
    (h : upload_family db fs name desc stop user = .ok (db1, nf, nu)) :
    nf = (fs.entries.filter isCandidate).length ∧
    db1.species.length = db.species.length + nu ∧
    ∀ s ∈ db1.species, s ∈ db.species ∨
      ((∀ t ∈ db.species, t.md5 ≠ s.md5) ∧
        ∃ e ∈ fs.entries.filter isCandidate, s.md5 = md5_file e.content) := by
  obtain ⟨hdir, g, created, sl, fin, hcase, hu, hloop, hdb1, hnf, hnu⟩ :=
    upload_family_ok_elim h
  refine ⟨?_, ?_, ?_⟩
  · rw [hnf]
    simp [candidate_files]
  · rw [hdb1, hnu]
    simp only [commit]
    simp [List.length_append]
  · intro s hs
    rw [hdb1] at hs
    simp only [commit] at hs
    rcases List.mem_append.mp hs with hs | hs
    · exact Or.inl hs
    · right
      obtain ⟨p, hpmem, hps⟩ := List.mem_map.mp hs
      have hpsl : p ∈ sl := (List.mem_filter.mp hpmem).1
      have hp2 : p.2 = true := (List.mem_filter.mp hpmem).2
      obtain ⟨f, hfmem, hinst, hnone⟩ := upload_loop_created hloop p hpsl hp2
      have hsmd5 : s.md5 = md5_file f := by rw [← hps, hinst]
      unfold candidate_files at hfmem
      obtain ⟨e, hemem, hef⟩ := List.mem_map.mp hfmem
      unfold from_md5 at hnone
      refine ⟨?_, ⟨e, hemem, ?_⟩⟩
      · intro t ht hts
        exact List.filter_eq_nil_iff.mp hnone t ht
          (by rw [beq_iff_eq, hts, hsmd5])
      · rw [hsmd5, hef]

/-- Witness for C1: the scenario call yields (files_found, files_uploaded)
equal to (3, 2), and the counting theorem holds at it. -/
theorem upload_family_counts_witness :
    upload_family dbE fsW "water-basis" "water" false uW =
      .ok (db1W, 3, 2) ∧
    (3 = (fsW.entries.filter isCandidate).length ∧
      db1W.species.length = dbE.species.length + 2 ∧
      ∀ s ∈ db1W.species, s ∈ dbE.species ∨
        ((∀ t ∈ dbE.species, t.md5 ≠ s.md5) ∧
          ∃ e ∈ fsW.entries.filter isCandidate,
            s.md5 = md5_file e.content)) := by
  have h : upload_family dbE fsW "water-basis" "water" false uW =
      .ok (db1W, 3, 2) := by rfl
  exact ⟨h, upload_family_counts h⟩

/-- Witness for C2: running the scenario call a second time returns
files_uploaded 0, the same files_found, and the unchanged store. -/
theorem upload_family_idempotent_witness :
    upload_family dbE fsW "water-basis" "water" false uW =
      .ok (db1W, 3, 2) ∧
    upload_family db1W fsW "water-basis" "water" false uW =
      .ok (db1W, 3, 0) := by
  have h : upload_family dbE fsW "water-basis" "water" false uW =
      .ok (db1W, 3, 2) := by rfl
  exact ⟨h, upload_family_idempotent h⟩

/-- C3 counterexample: the candidate filter of upload_family matches the
extension case-insensitively, so an entry named FE.IN is a candidate and is
counted by files_found, although its name does not end in the lowercase
extension .in. -/
theorem candidate_extension_case_insensitive_cx :
    isCandidate ⟨"FE.IN", true, "Fe file"⟩ = true ∧
    pyEndsWith "FE.IN" ".in" = false ∧
    (upload_family dbE fsIN "fam" "" false uW).toOption.map
      (fun r => r.2.1) = some 1 :=
  ⟨by rfl, by rfl, by rfl⟩

/-- C3 amended: a directory entry is counted as a candidate exactly when it
is a regular file (after resolving symbolic links) whose name ends with the
extension .in matched case-insensitively; a successful upload_family call
reports files_found equal to the number of such entries. -/
theorem upload_family_candidate_count {db db1 : DB} {fs : Fs}
    {name desc : String} {stop : Bool} {user : User} {nf nu : Nat}
    (h : upload_family db fs name desc stop user = .ok (db1, nf, nu)) :
    nf = (fs.entries.filter
        (fun e => e.isFile && pyEndsWith (pyLower e.name) ".in")).length := by
  obtain ⟨hdir, g, created, sl, fin, hcase, hu, hloop, hdb1, hnf, hnu⟩ :=
    upload_family_ok_elim h
  rw [hnf]
  show (candidate_files fs).length = (fs.entries.filter isCandidate).length
  simp [candidate_files]

/-- Witness for the amended C3: the FE.IN directory yields files_found 1,
matching the case-insensitive candidate count. -/
theorem upload_family_candidate_count_witness :
    upload_family dbE fsIN "fam" "" false uW = .ok (dbIN, 1, 1) ∧
    1 = (fsIN.entries.filter
        (fun e => e.isFile && pyEndsWith (pyLower e.name) ".in")).length := by
  have h : upload_family dbE fsIN "fam" "" false uW = .ok (dbIN, 1, 1) := by
    rfl
  exact ⟨h, upload_family_candidate_count h⟩

/-- C4: when the folder argument is not an existing directory,
upload_family fails with the ValueError kind; the error return carries no
successor state, so no family or species record is created or modified. -/
theorem upload_family_missing_dir {db : DB} {fs : Fs} {name desc : String}
    {stop : Bool} {user : User} (h : fs.isdir = false) :
    upload_family db fs name desc stop user = .error .valueError := by
  unfold upload_family
  rw [if_pos h]

/-- Witness for C4: a missing directory makes the call fail. -/
theorem upload_family_missing_dir_witness :
    upload_family dbE ⟨false, []⟩ "fam" "" true uW = .error .valueError :=
  upload_family_missing_dir rfl

/-- C5: when a family with the given name already exists in the lapwbasis
namespace but belongs to a different user, upload_family fails with the
UniquenessError kind before any write; the error return carries no
successor state, so the family's description and membership are
unchanged. -/
theorem upload_family_foreign_owner {db : DB} {fs : Fs} {name desc : String}
    {stop : Bool} {user : User} {g : Group}
    (hdir : fs.isdir = true)
    (hfind : findGroup db.groups name = some g)
    (hown : g.user_id ≠ user.id) :
    upload_family db fs name desc stop user = .error .uniquenessError := by
  unfold upload_family
  rw [if_neg (by simp [hdir])]
  simp only [hfind]
  simp only [upload_to_group]
  rw [if_pos hown]

/-- Witness for C5: a family owned by user 2 rejects an upload by user 1. -/
theorem upload_family_foreign_owner_witness :
    upload_family dbF ⟨true, []⟩ "fam" "new" false uW =
      .error .uniquenessError :=
  upload_family_foreign_owner rfl rfl (by decide)

/-- C10: on an existing directory holding no candidate .in file, and with no
foreign-owner conflict, upload_family still succeeds and still commits its
family-level side effects: it returns (0, 0), creates no species record,
and afterwards a family with the given name exists (created and stored if
it did not exist) whose description is the supplied value. -/
theorem upload_family_no_candidates {db : DB} {fs : Fs} {name desc : String}
    {stop : Bool} {user : User}
    (hdir : fs.isdir = true)
    (hcand : fs.entries.filter isCandidate = [])
    (hown : ∀ g, findGroup db.groups name = some g → g.user_id = user.id) :
    ∃ db1, upload_family db fs name desc stop user = .ok (db1, 0, 0) ∧
      db1.species = db.species ∧
      ∃ g2, findGroup db1.groups name = some g2 ∧ g2.description = desc := by
  have hfiles : candidate_files fs = [] := by
    simp [candidate_files, hcand]
  unfold upload_family
  rw [if_neg (by simp [hdir])]
  cases hfind : findGroup db.groups name with
  | some g =>
    have hu : g.user_id = user.id := hown g hfind
    simp only [upload_to_group]
    rw [if_neg (by simp [hu])]
    simp only [hfiles, upload_loop, List.length_nil, List.filter_nil]
    refine ⟨commit db name desc g false [], rfl, ?_, ?_⟩
    · simp [commit]
    · refine ⟨updated_group g desc [], ?_, by simp [updated_group]⟩
      have hkey : groupKeyMatches name (updated_group g desc []) = true := by
        have hk := findGroup_matches hfind
        simpa [groupKeyMatches, updated_group] using hk
      simp only [commit, Bool.false_eq_true, if_false]
      exact findGroup_replaceGroup hfind hkey
  | none =>
    simp only [upload_to_group]
    rw [if_neg (by simp [fresh_group])]
    simp only [hfiles, upload_loop, List.length_nil, List.filter_nil]
    refine ⟨commit db name desc (fresh_group name user) true [], rfl, ?_, ?_⟩
    · simp [commit]
    · refine ⟨updated_group (fresh_group name user) desc [], ?_,
        by simp [updated_group]⟩
      have hkey : groupKeyMatches name
          (updated_group (fresh_group name user) desc []) = true := by
        simp [groupKeyMatches, updated_group, fresh_group]
      simp only [commit, if_true]
      exact findGroup_append hfind hkey

/-- Witness for C10: an empty store and a directory with only a README
still produce a stored family with the requested description. -/
theorem upload_family_no_candidates_witness :
    ∃ db1, upload_family dbE fsR "fam2" "desc" true uW = .ok (db1, 0, 0) ∧
      db1.species = dbE.species ∧
      ∃ g2, findGroup db1.groups "fam2" = some g2 ∧
        g2.description = "desc" :=
  upload_family_no_candidates rfl (by rfl) (fun g hg => nomatch hg)

/-- C6: the chemical_symbol attribute of a species record created by
get_or_create equals the first 10 characters of the file text with every
single-quote character removed and the surrounding whitespace stripped. -/
theorem created_species_symbol {db : DB} {c : String} {u : Bool}
    {sp : LapwbasisData} (h : get_or_create db c u = .ok (sp, true)) :
    sp.chemical_symbol =
      pyStrip (String.mk ((c.toList.take 10).filter
        (fun ch => ch ≠ squote))) := by
  obtain ⟨hq, hinst⟩ := get_or_create_created h
  rw [hinst]
  rfl

/-- Witness for C6: a file whose content starts with Fe in single quotes
followed by whitespace yields the symbol Fe. -/
theorem created_species_symbol_witness :
    get_or_create dbE feContent true = .ok (feSpecies, true) ∧
    feSpecies.chemical_symbol =
      pyStrip (String.mk ((feContent.toList.take 10).filter
        (fun ch => ch ≠ squote))) ∧
    feSpecies.chemical_symbol = "Fe" := by
  have h : get_or_create dbE feContent true = .ok (feSpecies, true) := by rfl
  exact ⟨h, created_species_symbol h, by rfl⟩

/-- C9: get_or_create under the upload_family policy use_first equal to the
negation of stop_if_existing: a digest with no stored copy creates a fresh
record (created true); a digest with exactly one stored copy reuses it
(created false); a digest with several stored copies reuses the first when
stop_if_existing is false and is a fatal ValueError when it is true. -/
theorem get_or_create_policy (db : DB) (c : String) (stop : Bool) :
    get_or_create db c (!stop) =
      match from_md5 db (md5_file c) with
      | [] => .ok (⟨md5_file c, parse_species_file c, c⟩, true)
      | [s] => .ok (s, false)
      | s :: _ :: _ =>
        if stop then .error .valueError else .ok (s, false) := by
  unfold get_or_create
  cases hq : from_md5 db (md5_file c) with
  | nil => rfl
  | cons s rest =>
    cases rest with
    | nil => simp
    | cons s2 r2 => cases stop <;> simp

/-- C7: get_lapwbasis_groups returns the matching families sorted by family
name in lexicographic ascending order: the output is pairwise ordered by
label and is a permutation of the stored groups passing the query filter. -/
theorem get_lapwbasis_groups_sorted (db : DB)
    (fe : Option (List String)) (u : Option Nat) :
    List.Pairwise (fun a b : Group => a.label ≤ b.label)
      (get_lapwbasis_groups db fe u) ∧
    (get_lapwbasis_groups db fe u).Perm
      (db.groups.filter (family_filter fe u)) := by
  unfold get_lapwbasis_groups
  constructor
  · have htrans : ∀ a b c : Group,
        decide (a.label ≤ b.label) = true →
        decide (b.label ≤ c.label) = true →
        decide (a.label ≤ c.label) = true := by
      intro a b c hab hbc
      simp only [decide_eq_true_eq] at hab hbc ⊢
      exact le_trans hab hbc
    have htot : ∀ a b : Group,
        (decide (a.label ≤ b.label) || decide (b.label ≤ a.label)) = true := by
      intro a b
      simp [le_total]
    have hs := List.sorted_mergeSort htrans htot
      (db.groups.filter (family_filter fe u))
    exact List.Pairwise.imp (fun hab => of_decide_eq_true hab) hs
  · exact List.mergeSort_perm _ _

/-- Unfolding of the element and user filter of the group query. -/
theorem family_filter_some_iff (els : List String) (u : Option Nat)
    (g : Group) :
    family_filter (some els) u g = true ↔
      (g.type_string = LAPWBASIS_GROUP_TYPE ∧
        (∀ uid, u = some uid → g.user_id = uid) ∧
        ∀ e ∈ els, ∃ b, Node.basis b ∈ g.nodes ∧
          b.chemical_symbol = pyCapitalize e) := by
  unfold family_filter
  simp only [Bool.and_eq_true, beq_iff_eq]
  constructor
  · rintro ⟨⟨ht, hu⟩, hels⟩
    refine ⟨ht, ?_, ?_⟩
    · intro uid huid
      subst huid
      simpa using hu
    · intro e he
      have hone := List.all_eq_true.mp hels (pyCapitalize e)
        (List.mem_map_of_mem _ he)
      obtain ⟨n, hn, hsym⟩ := List.any_eq_true.mp hone
      cases n with
      | basis b => exact ⟨b, hn, by simpa [nodeSymbol] using hsym⟩
      | other t => simp [nodeSymbol] at hsym
  · rintro ⟨ht, hu, hels⟩
    refine ⟨⟨ht, ?_⟩, ?_⟩
    · cases u with
      | none => simp
      | some uid => simpa using hu uid rfl
    · apply List.all_eq_true.mpr
      intro x hx
      obtain ⟨e, he, hex⟩ := List.mem_map.mp hx
      obtain ⟨b, hb, hbs⟩ := hels e he
      apply List.any_eq_true.mpr
      exact ⟨Node.basis b, hb, by simp [nodeSymbol, hbs, hex]⟩

/-- C8: under an element filter, each requested symbol is first capitalized,
and a family is returned by get_lapwbasis_groups exactly when it is a
stored group of the lapwbasis type that passes the user filter and
contains, for every requested symbol, at least one member species whose
chemical_symbol equals the capitalized request. -/
theorem get_lapwbasis_groups_element_filter (db : DB) (els : List String)
    (u : Option Nat) (g : Group) :
    g ∈ get_lapwbasis_groups db (some els) u ↔
      (g ∈ db.groups ∧ g.type_string = LAPWBASIS_GROUP_TYPE ∧
        (∀ uid, u = some uid → g.user_id = uid) ∧
        ∀ e ∈ els, ∃ b, Node.basis b ∈ g.nodes ∧
          b.chemical_symbol = pyCapitalize e) := by
  unfold get_lapwbasis_groups
  rw [List.Perm.mem_iff (List.mergeSort_perm _ _), List.mem_filter,
    family_filter_some_iff]

end AiidaElk
